import Mathlib

/-!
# Verification of the super-resolution core image/model slice

Shallow embedding of the `super_resolution` C++ sources:
* `src/image_model/downsampling_module.cpp` (present in the repository),
* `src/optimization/irls_map_solver.h` (declarations present in the repository),
* the `ImageData` operations exercised by `src/test/test_image_data.cpp`
  (the implementation file `image_data.cpp` is not part of the provided
  sources, so those operations are modelled from the specification,
  cross-checked against the literal expectations of the tests).

Pixel samples are modelled as rationals (`ℚ`); the C++ code stores `double`.
All arithmetic claims checked here are exact at the modelled level.
-/

namespace SuperResolution

/-- Modelled from the spec: `ImageData` (named `NumericImage` in the spec) is a
"multi-channel 2-D array container": an ordered sequence of channel planes,
each a 2-D array of real-valued samples stored row-major, with a shared image
size (rows × cols).  The implementation file `image_data.cpp` is not among the
provided sources; this model follows the spec §3 data model and the accessor
behaviour pinned down by `test_image_data.cpp`. -/
structure ImageData where
  height : ℕ
  width : ℕ
  channels : List (List ℚ)
deriving DecidableEq

/-- A default-constructed (empty) image: no channels, zero size. -/
def ImageData.empty : ImageData := ⟨0, 0, []⟩

/-- `ImageData::GetNumChannels`. -/
def ImageData.getNumChannels (img : ImageData) : ℕ := img.channels.length

/-- `ImageData::GetImageSize`: a `cv::Size` is `(width, height)`. -/
def ImageData.getImageSize (img : ImageData) : ℕ × ℕ := (img.width, img.height)

/-- `ImageData::GetNumPixels`: number of pixels in one channel. -/
def ImageData.getNumPixels (img : ImageData) : ℕ := img.height * img.width

/-- `ImageData::GetPixelValue(channel, index)`: row-major flat access into one
channel.  Out-of-range access is undefined in the C++ code; the model totalises
it with a default of `0`. -/
def ImageData.getPixelValue (img : ImageData) (channel index : ℕ) : ℚ :=
  (img.channels.getD channel []).getD index 0

/-- Modelled from the spec: `ImageData::AddChannel` "appends a channel; if the
image already has channels, the new channel's size must match, else fails with
a DimensionMismatch condition".  The channel data is given together with its
own matrix dimensions; adding to an empty image establishes the image size. -/
def ImageData.addChannel (img : ImageData) (chHeight chWidth : ℕ)
    (data : List ℚ) : Option ImageData :=
  if img.channels.isEmpty then
    some ⟨chHeight, chWidth, [data]⟩
  else if chHeight = img.height ∧ chWidth = img.width then
    some ⟨img.height, img.width, img.channels ++ [data]⟩
  else
    none

/-- Modelled from the spec: scalar multiplication (`ImageData::MultiplyByScalar`
and `operator*`), a pure elementwise map over every channel. -/
def ImageData.multiplyByScalar (img : ImageData) (s : ℚ) : ImageData :=
  ⟨img.height, img.width, img.channels.map (List.map (fun v => v * s))⟩

/-- Modelled from the spec: scalar division (`operator/`), a pure elementwise
map over every channel. -/
def ImageData.divideByScalar (img : ImageData) (s : ℚ) : ImageData :=
  ⟨img.height, img.width, img.channels.map (List.map (fun v => v / s))⟩

/-- Modelled from the spec: elementwise addition between same-shaped images
(`operator+`); "mismatched shapes fail with a DimensionMismatch condition". -/
def ImageData.addImages (a b : ImageData) : Option ImageData :=
  if a.height = b.height ∧ a.width = b.width ∧
      a.channels.length = b.channels.length then
    some ⟨a.height, a.width,
          List.zipWith (List.zipWith (fun x y => x + y)) a.channels b.channels⟩
  else
    none

/-- Interpolation modes of `ImageData::ResizeImage` relevant to the claims:
`INTERPOLATE_NEAREST`, `INTERPOLATE_ADDITIVE` and OpenCV's `cv::INTER_AREA`
(used directly by `DownsamplingModule`).  The linear mode exists in the code
but no claim depends on its semantics, so it is not modelled. -/
inductive InterpolationMethod
  | nearest
  | additive
  | area
deriving DecidableEq

/-- One resized channel plane, produced row-major for a `dstH × dstW` target.
Modelled from the spec §4.1:
* `nearest`: pixel selection, destination pixel `(r, c)` reads source pixel
  `(r * srcH / dstH, c * srcW / dstW)` (integer division), so an integer
  factor-`k` upsample replicates each source pixel over a `k × k` block;
* `additive` upsampling (`srcH ≤ dstH`): zero-pads around original samples —
  a factor-`k` upsample places each original sample at stride `k`, the rest 0;
* `additive` downsampling: sums all source samples of the `k × k` source block
  mapping into each destination cell (the adjoint of the zero-pad upsample);
* `area`: area-averaging on downsampling — the mean of the source block —
  and pixel selection otherwise. -/
def resizeChannel (srcH srcW dstH dstW : ℕ) (method : InterpolationMethod)
    (ch : List ℚ) : List ℚ :=
  (List.range (dstH * dstW)).map (fun idx =>
    let r := idx / dstW
    let c := idx % dstW
    match method with
    | .nearest => ch.getD ((r * srcH / dstH) * srcW + c * srcW / dstW) 0
    | .additive =>
        if srcH ≤ dstH then
          let kr := dstH / srcH
          let kc := dstW / srcW
          if r % kr = 0 ∧ c % kc = 0 then
            ch.getD ((r / kr) * srcW + c / kc) 0
          else 0
        else
          let kr := srcH / dstH
          let kc := srcW / dstW
          ((List.range kr).map (fun i =>
            ((List.range kc).map (fun j =>
              ch.getD ((kr * r + i) * srcW + (kc * c + j)) 0)).sum)).sum
    | .area =>
        if dstH < srcH then
          let kr := srcH / dstH
          let kc := srcW / dstW
          (((List.range kr).map (fun i =>
            ((List.range kc).map (fun j =>
              ch.getD ((kr * r + i) * srcW + (kc * c + j)) 0)).sum)).sum)
            / (kr * kc)
        else ch.getD ((r * srcH / dstH) * srcW + c * srcW / dstW) 0)

/-- `ImageData::ResizeImage(cv::Size, method)`: resize every channel to the
explicit target size (all channels are resized atomically, spec §3). -/
def ImageData.resizeImage (img : ImageData) (dstH dstW : ℕ)
    (method : InterpolationMethod) : ImageData :=
  ⟨dstH, dstW,
   img.channels.map (resizeChannel img.height img.width dstH dstW method)⟩

/-- `ImageData::ResizeImage(scale_factor, method)`: the uniform-scale-factor
overload; the destination size is the scaled size rounded down, and resizing
then proceeds exactly as with an explicit target size (spec §4.1: "accepts
either an explicit target size or a uniform scale factor"). -/
def ImageData.resizeByScale (img : ImageData) (scale : ℚ)
    (method : InterpolationMethod) : ImageData :=
  img.resizeImage ⌊scale * img.height⌋₊ ⌊scale * img.width⌋₊ method

/-! ## Solver options (`src/optimization/irls_map_solver.h`) -/

/-- `IRLSMapSolverOptions` (header `irls_map_solver.h`, lines 14–36), flattened
with the inherited `MapSolverOptions` fields the spec §6 names (inner-solver
iteration cap and convergence threshold).  Defaults from the header:
`max_num_irls_iterations = 20`, `irls_cost_difference_threshold = 1.0e-5`. -/
structure IRLSMapSolverOptions where
  max_num_solver_iterations : ℤ
  solver_convergence_threshold : ℚ
  max_num_irls_iterations : ℤ
  irls_cost_difference_threshold : ℚ
deriving DecidableEq

/-- Baseline (default-constructed) inner-solver convergence threshold, used as
the fixed base of the adaptive recomputation. -/
def defaultSolverConvergenceThreshold : ℚ := 1 / 1000000

/-- Baseline (default-constructed) IRLS cost-difference convergence threshold,
`1.0e-5` in the header. -/
def defaultIrlsCostDifferenceThreshold : ℚ := 1 / 100000

/-- Modelled from the spec: the implementation of
`IRLSMapSolverOptions::AdjustThresholdsAdaptively` is not among the provided
sources (the header only declares it).  Spec §4.4: it "recomputes convergence
thresholds proportionally to problem size before a solve begins" from
`(num_parameters, regularization_parameter_sum)`; the recomputed thresholds
are the fixed default thresholds scaled by the problem size and the
regularization weight sum, and the iteration caps are untouched. -/
def IRLSMapSolverOptions.adjustThresholdsAdaptively
    (opts : IRLSMapSolverOptions) (numParameters : ℤ)
    (regularizationParameterSum : ℚ) : IRLSMapSolverOptions :=
  ⟨opts.max_num_solver_iterations,
   defaultSolverConvergenceThreshold * numParameters *
     (1 + regularizationParameterSum),
   opts.max_num_irls_iterations,
   defaultIrlsCostDifferenceThreshold * numParameters *
     (1 + regularizationParameterSum)⟩

/-! ## Downsampling module (`src/image_model/downsampling_module.cpp`) -/

/-- `DownsamplingModule` holds the scale factor passed at construction
(`downsampling_module.cpp`, line 12). -/
structure DownsamplingModule where
  scale : ℚ
deriving DecidableEq

/-- `DownsamplingModule::DownsamplingModule(const double scale)` runs
`CHECK_GE(scale_, 1.0)` (`downsampling_module.cpp`, line 13): construction
aborts unless `scale ≥ 1.0`.  The abort is modelled as `none`. -/
def DownsamplingModule.create (scale : ℚ) : Option DownsamplingModule :=
  if 1 ≤ scale then some ⟨scale⟩ else none

/-- `DownsamplingModule::ApplyToImage(image_data, index)`
(`downsampling_module.cpp`, lines 16–22): computes
`scale_factor = 1.0 / scale_` and calls
`image_data->ResizeImage(scale_factor, cv::INTER_AREA)`.  The `index`
argument is unused by the source. -/
def DownsamplingModule.applyToImage (m : DownsamplingModule)
    (img : ImageData) (index : ℤ) : ImageData :=
  img.resizeByScale (1 / m.scale) .area

/-! ## Image diagnostics report -/

/-- `ImageDataReport`: the fields checked by
`TEST(ImageData, GetImageDataReport)`.  The `image_size` field of the C++
struct is `(width, height)` as a `cv::Size`. -/
structure ImageDataReport where
  image_size : ℕ × ℕ
  num_channels : ℕ
  num_negative_pixels : ℕ
  num_over_one_pixels : ℕ
  channel_with_most_negative_pixels : ℕ
  max_num_negative_pixels_in_one_channel : ℕ
  channel_with_most_over_one_pixels : ℕ
  max_num_over_one_pixels_in_one_channel : ℕ
  smallest_pixel_value : ℚ
  largest_pixel_value : ℚ
deriving DecidableEq

/-- Index of the first channel attaining the maximal count, together with that
count, for a per-channel count function. -/
def argmaxCount (counts : List ℕ) : ℕ × ℕ :=
  (List.range counts.length).foldl
    (fun best i =>
      if best.2 < counts.getD i 0 then (i, counts.getD i 0) else best)
    (0, 0)

/-- Modelled from the spec: `ImageData::GetImageDataReport` "computes, per
channel and globally, counts of out-of-range pixels (negative, >1) and
extrema" (spec §4.1); the exact fields are pinned down by
`TEST(ImageData, GetImageDataReport)`.  Counts are totals over all channels;
the per-channel extremum fields report the first channel with the most
offending pixels and its count; the global extrema fold over every sample of
every channel. -/
def ImageData.getImageDataReport (img : ImageData) : ImageDataReport :=
  let allPixels := img.channels.flatten
  let negCounts := img.channels.map (List.countP (fun v => decide (v < 0)))
  let overCounts := img.channels.map (List.countP (fun v => decide (1 < v)))
  let negBest := argmaxCount negCounts
  let overBest := argmaxCount overCounts
  { image_size := (img.width, img.height)
    num_channels := img.channels.length
    num_negative_pixels := negCounts.sum
    num_over_one_pixels := overCounts.sum
    channel_with_most_negative_pixels := negBest.1
    max_num_negative_pixels_in_one_channel := negBest.2
    channel_with_most_over_one_pixels := overBest.1
    max_num_over_one_pixels_in_one_channel := overBest.2
    smallest_pixel_value := allPixels.foldl min (allPixels.headD 0)
    largest_pixel_value := allPixels.foldl max (allPixels.headD 0) }

/-! ## Buffer-store model for aliasing claims

The deep-copy claim is about memory aliasing, so the heap is made explicit:
a store of channel buffers, and images that refer to buffers by index. -/

/-- A store of channel buffers; an image's channels are indices into it. -/
abbrev Store : Type := List (List ℚ)

/-- An image as the C++ object is laid out: dimensions plus one owned channel
buffer per channel, referenced by store index. -/
structure ImageRef where
  height : ℕ
  width : ℕ
  buffers : List ℕ
deriving DecidableEq

/-- Modelled from the spec: "copying an image performs deep duplication of
channel data (no aliasing between copies)" (spec §3).  The copy allocates one
fresh buffer per channel at the end of the store, duplicating the source
channel data, and the copied image references only the fresh buffers. -/
def copyImage (s : Store) (img : ImageRef) : Store × ImageRef :=
  (s ++ img.buffers.map (fun b => s.getD b []),
   ⟨img.height, img.width,
    (List.range img.buffers.length).map (fun i => s.length + i)⟩)

/-- A write through `ImageData::GetMutableChannelData`: mutate one sample of
one buffer of the store in place. -/
def writePixel (s : Store) (bufferId index : ℕ) (v : ℚ) : Store :=
  s.set bufferId ((s.getD bufferId []).set index v)

/-- Read a pixel of an image through the store. -/
def readPixel (s : Store) (img : ImageRef) (channel index : ℕ) : ℚ :=
  (s.getD (img.buffers.getD channel 0) []).getD index 0

/-! ## Helper lemmas -/

/-- Element access into a tabulated list. -/
theorem getD_map_range {α : Type} (f : ℕ → α) (d : α) {n i : ℕ} (h : i < n) :
    ((List.range n).map f).getD i d = f i := by
  rw [List.getD_eq_getElem?_getD, List.getElem?_map, List.getElem?_range h]
  rfl

/-- Row recovery from a row-major flat index. -/
theorem rowMajor_div {dw : ℕ} (r : ℕ) {c : ℕ} (hc : c < dw) :
    (r * dw + c) / dw = r := by
  have h0 : 0 < dw := by omega
  rw [Nat.add_comm, Nat.add_mul_div_right _ _ h0, Nat.div_eq_of_lt hc,
    Nat.zero_add]

/-- Column recovery from a row-major flat index. -/
theorem rowMajor_mod {dw : ℕ} (r : ℕ) {c : ℕ} (hc : c < dw) :
    (r * dw + c) % dw = c := by
  rw [Nat.add_comm, Nat.add_mul_mod_self_right, Nat.mod_eq_of_lt hc]

/-- A row-major flat index is in range. -/
theorem rowMajor_lt {dh dw r c : ℕ} (hr : r < dh) (hc : c < dw) :
    r * dw + c < dh * dw := by
  calc r * dw + c < r * dw + dw := by omega
    _ ≤ dh * dw := by
        rw [← Nat.succ_mul]
        exact Nat.mul_le_mul_right dw hr

/-- Channel access in a mapped channel list. -/
theorem getD_map_channels (f : List ℚ → List ℚ) (l : List (List ℚ)) {i : ℕ}
    (h : i < l.length) :
    (l.map f).getD i [] = f (l.getD i []) := by
  rw [List.getD_eq_getElem?_getD, List.getD_eq_getElem?_getD,
    List.getElem?_map, List.getElem?_eq_getElem h]
  rfl

/-- Pixel-level description of a nearest-mode resize: destination pixel
`(r, c)` of the `dstH × dstW` target reads source pixel
`(r * srcH / dstH, c * srcW / dstW)`. -/
theorem resizeImage_nearest_pixel (img : ImageData) {dstH dstW : ℕ}
    {channel r c : ℕ} (hch : channel < img.channels.length)
    (hr : r < dstH) (hc : c < dstW) :
    (img.resizeImage dstH dstW .nearest).getPixelValue channel (r * dstW + c) =
      img.getPixelValue channel
        ((r * img.height / dstH) * img.width + c * img.width / dstW) := by
  unfold ImageData.resizeImage ImageData.getPixelValue
  simp only
  rw [getD_map_channels _ _ hch]
  unfold resizeChannel
  rw [getD_map_range _ _ (rowMajor_lt hr hc)]
  simp only [rowMajor_div r hc, rowMajor_mod r hc]

/-- List tabulation sums agree with finite-set sums. -/
theorem listSum_map_range (f : ℕ → ℚ) (n : ℕ) :
    ((List.range n).map f).sum = ∑ i ∈ Finset.range n, f i := by
  induction n with
  | zero => simp
  | succ n ih =>
      rw [List.range_succ, List.map_append, List.sum_append,
        Finset.sum_range_succ, ih]
      simp

/-- Pixel-level description of an additive-mode upsample
(`img.height ≤ dstH`): destination pixel `(r, c)` holds the source sample
`(r / kr, c / kc)` when `r` and `c` sit on the stride grid, and `0`
otherwise, where `kr` and `kc` are the row and column upsampling strides. -/
theorem resizeImage_additive_up_pixel (img : ImageData) {dstH dstW : ℕ}
    {channel r c : ℕ} (hch : channel < img.channels.length)
    (hup : img.height ≤ dstH) (hr : r < dstH) (hc : c < dstW) :
    (img.resizeImage dstH dstW .additive).getPixelValue channel
        (r * dstW + c) =
      if r % (dstH / img.height) = 0 ∧ c % (dstW / img.width) = 0 then
        img.getPixelValue channel
          (r / (dstH / img.height) * img.width + c / (dstW / img.width))
      else 0 := by
  unfold ImageData.resizeImage ImageData.getPixelValue
  simp only
  rw [getD_map_channels _ _ hch]
  unfold resizeChannel
  rw [getD_map_range _ _ (rowMajor_lt hr hc)]
  simp only [rowMajor_div r hc, rowMajor_mod r hc, if_pos hup]

/-- Pixel-level description of an additive-mode downsample
(`dstH < img.height`): destination pixel `(r, c)` is the sum of the whole
`kr × kc` source block mapping onto it. -/
theorem resizeImage_additive_down_pixel (img : ImageData) {dstH dstW : ℕ}
    {channel r c : ℕ} (hch : channel < img.channels.length)
    (hdown : dstH < img.height) (hr : r < dstH) (hc : c < dstW) :
    (img.resizeImage dstH dstW .additive).getPixelValue channel
        (r * dstW + c) =
      ∑ i ∈ Finset.range (img.height / dstH),
        ∑ j ∈ Finset.range (img.width / dstW),
          img.getPixelValue channel
            ((img.height / dstH * r + i) * img.width +
              (img.width / dstW * c + j)) := by
  unfold ImageData.resizeImage ImageData.getPixelValue
  simp only
  rw [getD_map_channels _ _ hch]
  unfold resizeChannel
  rw [getD_map_range _ _ (rowMajor_lt hr hc)]
  simp only [rowMajor_div r hc, rowMajor_mod r hc,
    if_neg (by omega : ¬ img.height ≤ dstH), listSum_map_range]

/-! ## Claim theorems -/

/-- Claim C3: constructing a `DownsamplingModule` with a scale factor strictly
less than 1.0 fails (the `CHECK_GE` aborts construction), and construction
with any scale factor greater than or equal to 1.0 succeeds. -/
theorem downsampling_module_construction_iff (scale : ℚ) :
    (DownsamplingModule.create scale).isSome ↔ 1 ≤ scale := by
  unfold DownsamplingModule.create
  split <;> simp_all

/-- Claim C4: `IRLSMapSolverOptions.AdjustThresholdsAdaptively` is idempotent:
adjusting twice with the same `(num_parameters, regularization_parameter_sum)`
pair leaves the thresholds exactly as adjusting once does. -/
theorem adjust_thresholds_adaptively_idempotent (opts : IRLSMapSolverOptions)
    (numParameters : ℤ) (regularizationParameterSum : ℚ) :
    ((opts.adjustThresholdsAdaptively numParameters
        regularizationParameterSum).adjustThresholdsAdaptively numParameters
        regularizationParameterSum) =
      opts.adjustThresholdsAdaptively numParameters
        regularizationParameterSum := rfl

/-- Claim C5: `DownsamplingModule::ApplyToImage` with scale factor `s` resizes
the image by the factor `1/s` using area-averaging interpolation, for every
image and regardless of the observation index argument; on a concrete image
the area result moreover differs from what the additive and nearest modes
would produce, so the mode choice is observable. -/
theorem downsampling_apply_is_area_resize (m : DownsamplingModule)
    (img : ImageData) (index otherIndex : ℤ) :
    m.applyToImage img index = img.resizeByScale (1 / m.scale) .area ∧
    m.applyToImage img index = m.applyToImage img otherIndex ∧
    (DownsamplingModule.mk 2).applyToImage ⟨2, 2, [[0, 0, 0, 4]]⟩ 0 ≠
      ImageData.resizeByScale ⟨2, 2, [[0, 0, 0, 4]]⟩ (1 / 2) .additive ∧
    (DownsamplingModule.mk 2).applyToImage ⟨2, 2, [[0, 0, 0, 4]]⟩ 0 ≠
      ImageData.resizeByScale ⟨2, 2, [[0, 0, 0, 4]]⟩ (1 / 2) .nearest := by
  refine ⟨rfl, rfl, ?_, ?_⟩ <;>
    norm_num [DownsamplingModule.applyToImage, ImageData.resizeByScale,
      ImageData.resizeImage, resizeChannel, show List.range 1 = [0] from rfl,
      show List.range 2 = [0, 1] from rfl, List.getD]

/-- Claim C8: `ResizeImage` in nearest mode with an integer scale factor `k`
replicates each source pixel over a deterministic `k × k` destination block:
destination pixel `(r, c)` equals source pixel `(r / k, c / k)`, and the
scale-factor overload produces exactly the same image as the explicit-size
overload with target `(k·height, k·width)`. -/
theorem resize_nearest_integer_factor_replication (img : ImageData) (k : ℕ)
    (hk : 0 < k) (channel r c : ℕ) (hch : channel < img.channels.length)
    (hr : r < k * img.height) (hc : c < k * img.width) :
    img.resizeByScale (k : ℚ) .nearest =
        img.resizeImage (k * img.height) (k * img.width) .nearest ∧
    (img.resizeImage (k * img.height) (k * img.width) .nearest).getPixelValue
        channel (r * (k * img.width) + c) =
      img.getPixelValue channel (r / k * img.width + c / k) := by
  have hH : 0 < img.height := by
    rcases Nat.eq_zero_or_pos img.height with h0 | h0
    · rw [h0, Nat.mul_zero] at hr; omega
    · exact h0
  have hW : 0 < img.width := by
    rcases Nat.eq_zero_or_pos img.width with h0 | h0
    · rw [h0, Nat.mul_zero] at hc; omega
    · exact h0
  constructor
  · unfold ImageData.resizeByScale
    rw [← Nat.cast_mul, ← Nat.cast_mul, Nat.floor_natCast, Nat.floor_natCast]
  · rw [resizeImage_nearest_pixel img hch hr hc,
      Nat.mul_div_mul_right r k hH, Nat.mul_div_mul_right c k hW]

/-- Concrete instance used by the nearest-resize witness. -/
def nearestWitnessImage : ImageData := ⟨1, 1, [[7]]⟩

/-- Witness for claim C8 at the concrete image `[[7]]`, `k = 2`,
destination pixel `(1, 1)`. -/
theorem resize_nearest_integer_factor_replication_witness :
    (0 < 2 ∧ 0 < nearestWitnessImage.channels.length ∧
      1 < 2 * nearestWitnessImage.height ∧ 1 < 2 * nearestWitnessImage.width) ∧
    (nearestWitnessImage.resizeByScale ((2 : ℕ) : ℚ) .nearest =
        nearestWitnessImage.resizeImage (2 * nearestWitnessImage.height)
          (2 * nearestWitnessImage.width) .nearest ∧
      (nearestWitnessImage.resizeImage (2 * nearestWitnessImage.height)
          (2 * nearestWitnessImage.width) .nearest).getPixelValue 0
          (1 * (2 * nearestWitnessImage.width) + 1) =
        nearestWitnessImage.getPixelValue 0
          (1 / 2 * nearestWitnessImage.width + 1 / 2)) :=
  ⟨⟨by decide, by decide, by decide, by decide⟩,
   @resize_nearest_integer_factor_replication nearestWitnessImage 2
     (by decide) 0 1 1 (by decide) (by decide) (by decide)⟩

/-- Claim C2: additive-mode `ResizeImage`.  Upsampling by an integer factor
`k` places each original sample `(i, j)` at destination index `(k·i, k·j)`
and fills every destination pixel off the stride grid with `0`; downsampling
by `1/k` (with `k ≥ 2` dividing both dimensions) makes each destination pixel
the sum of the corresponding `k × k` block of source samples. -/
theorem resize_additive_stride_and_block_sum (img : ImageData) (k : ℕ)
    (hk : 0 < k) (channel : ℕ) (hch : channel < img.channels.length)
    (hH : 0 < img.height) (hW : 0 < img.width) :
    (∀ i j, i < img.height → j < img.width →
      (img.resizeByScale ((k : ℕ) : ℚ) .additive).getPixelValue channel
          (k * i * (k * img.width) + k * j) =
        img.getPixelValue channel (i * img.width + j)) ∧
    (∀ r c, r < k * img.height → c < k * img.width → ¬(k ∣ r ∧ k ∣ c) →
      (img.resizeByScale ((k : ℕ) : ℚ) .additive).getPixelValue channel
          (r * (k * img.width) + c) = 0) ∧
    (2 ≤ k → k ∣ img.height → k ∣ img.width →
      ∀ i j, i < img.height / k → j < img.width / k →
        (img.resizeByScale (1 / (k : ℚ)) .additive).getPixelValue channel
            (i * (img.width / k) + j) =
          ∑ a ∈ Finset.range k, ∑ b ∈ Finset.range k,
            img.getPixelValue channel
              ((k * i + a) * img.width + (k * j + b))) := by
  have hscaleUp : img.resizeByScale ((k : ℕ) : ℚ) .additive =
      img.resizeImage (k * img.height) (k * img.width) .additive := by
    unfold ImageData.resizeByScale
    rw [← Nat.cast_mul, ← Nat.cast_mul, Nat.floor_natCast, Nat.floor_natCast]
  refine ⟨?_, ?_, ?_⟩
  · intro i j hi hj
    have hr : k * i < k * img.height := mul_lt_mul_of_pos_left hi hk
    have hc : k * j < k * img.width := mul_lt_mul_of_pos_left hj hk
    rw [hscaleUp,
      resizeImage_additive_up_pixel img hch (Nat.le_mul_of_pos_left _ hk) hr
        hc,
      Nat.mul_div_cancel k hH, Nat.mul_div_cancel k hW,
      if_pos ⟨Nat.mul_mod_right k i, Nat.mul_mod_right k j⟩,
      Nat.mul_div_cancel_left i hk, Nat.mul_div_cancel_left j hk]
  · intro r c hr hc hnot
    rw [hscaleUp,
      resizeImage_additive_up_pixel img hch (Nat.le_mul_of_pos_left _ hk) hr
        hc,
      Nat.mul_div_cancel k hH, Nat.mul_div_cancel k hW, if_neg]
    intro h
    exact hnot ⟨Nat.dvd_of_mod_eq_zero h.1, Nat.dvd_of_mod_eq_zero h.2⟩
  · intro hk2 hdh hdw i j hi hj
    have hscaleDown : img.resizeByScale (1 / (k : ℚ)) .additive =
        img.resizeImage (img.height / k) (img.width / k) .additive := by
      unfold ImageData.resizeByScale
      rw [one_div_mul_eq_div, one_div_mul_eq_div, Nat.floor_div_nat,
        Nat.floor_div_nat, Nat.floor_natCast, Nat.floor_natCast]
    have hdown : img.height / k < img.height := Nat.div_lt_self hH hk2
    rw [hscaleDown, resizeImage_additive_down_pixel img hch hdown hi hj,
      Nat.div_div_self hdh (by omega), Nat.div_div_self hdw (by omega)]

/-- Concrete instance used by the additive-resize witness. -/
def additiveWitnessImage : ImageData := ⟨2, 2, [[1, 2, 3, 4]]⟩

/-- Witness for claim C2 at the concrete 2×2 image `[[1,2],[3,4]]`, `k = 2`:
sample placement at destination `(0, 2)`, a zero-padded pixel at `(1, 0)`,
and the block sum of the whole image on a `1/2` downsample. -/
theorem resize_additive_stride_and_block_sum_witness :
    (0 < 2 ∧ 0 < additiveWitnessImage.channels.length ∧
      0 < additiveWitnessImage.height ∧ 0 < additiveWitnessImage.width) ∧
    (additiveWitnessImage.resizeByScale ((2 : ℕ) : ℚ) .additive).getPixelValue
        0 (2 * 0 * (2 * additiveWitnessImage.width) + 2 * 1) =
      additiveWitnessImage.getPixelValue 0
        (0 * additiveWitnessImage.width + 1) ∧
    (additiveWitnessImage.resizeByScale ((2 : ℕ) : ℚ) .additive).getPixelValue
        0 (1 * (2 * additiveWitnessImage.width) + 0) = 0 ∧
    (additiveWitnessImage.resizeByScale
        (1 / ((2 : ℕ) : ℚ)) .additive).getPixelValue 0
        (0 * (additiveWitnessImage.width / 2) + 0) =
      ∑ a ∈ Finset.range 2, ∑ b ∈ Finset.range 2,
        additiveWitnessImage.getPixelValue 0
          ((2 * 0 + a) * additiveWitnessImage.width + (2 * 0 + b)) :=
  ⟨⟨by decide, by decide, by decide, by decide⟩,
   (resize_additive_stride_and_block_sum additiveWitnessImage 2 (by decide) 0
       (by decide) (by decide) (by decide)).1 0 1 (by decide) (by decide),
   (resize_additive_stride_and_block_sum additiveWitnessImage 2 (by decide) 0
       (by decide) (by decide) (by decide)).2.1 1 0 (by decide) (by decide)
     (by decide),
   (resize_additive_stride_and_block_sum additiveWitnessImage 2 (by decide) 0
       (by decide) (by decide) (by decide)).2.2 (by decide) (by decide)
     (by decide) 0 0 (by decide) (by decide)⟩

/-- Claim C1: for every 4×4 single-channel image, a 2× nearest-neighbor
upsample followed by a 2× additive-mode downsample yields a 4×4 image whose
every pixel is four times the corresponding original pixel (each original
pixel becomes 4 identical replicas, which the additive downsample sums). -/
theorem nearest_up_additive_down_roundtrip (ch : List ℚ)
    (hlen : ch.length = 16) (r c : ℕ) (hr : r < 4) (hc : c < 4) :
    (((ImageData.mk 4 4 [ch]).resizeByScale 2 .nearest).resizeByScale (1 / 2)
          .additive).getImageSize = (4, 4) ∧
    (((ImageData.mk 4 4 [ch]).resizeByScale 2 .nearest).resizeByScale (1 / 2)
          .additive).getPixelValue 0 (r * 4 + c) =
      4 * (ImageData.mk 4 4 [ch]).getPixelValue 0 (r * 4 + c) := by
  have hup : (ImageData.mk 4 4 [ch]).resizeByScale 2 .nearest =
      (ImageData.mk 4 4 [ch]).resizeImage 8 8 .nearest := by
    unfold ImageData.resizeByScale
    norm_num
  have hdown : ((ImageData.mk 4 4 [ch]).resizeImage 8 8 .nearest).resizeByScale
      (1 / 2) .additive =
      ((ImageData.mk 4 4 [ch]).resizeImage 8 8 .nearest).resizeImage 4 4
        .additive := by
    unfold ImageData.resizeByScale
    rw [show ((ImageData.mk 4 4 [ch]).resizeImage 8 8 .nearest).height = 8
        from rfl,
      show ((ImageData.mk 4 4 [ch]).resizeImage 8 8 .nearest).width = 8
        from rfl]
    norm_num
  rw [hup, hdown]
  refine ⟨rfl, ?_⟩
  have hch1 :
      0 < ((ImageData.mk 4 4 [ch]).resizeImage 8 8 .nearest).channels.length :=
    Nat.one_pos
  have h48 : 4 < ((ImageData.mk 4 4 [ch]).resizeImage 8 8 .nearest).height :=
    by simp [ImageData.resizeImage]
  rw [resizeImage_additive_down_pixel _ hch1 h48 hr hc]
  simp only [show ((ImageData.mk 4 4 [ch]).resizeImage 8 8 .nearest).height = 8
      from rfl,
    show ((ImageData.mk 4 4 [ch]).resizeImage 8 8 .nearest).width = 8
      from rfl,
    show (8 : ℕ) / 4 = 2 from rfl]
  have hterm : ∀ i ∈ Finset.range 2, ∀ j ∈ Finset.range 2,
      ((ImageData.mk 4 4 [ch]).resizeImage 8 8 .nearest).getPixelValue 0
          ((2 * r + i) * 8 + (2 * c + j)) =
        (ImageData.mk 4 4 [ch]).getPixelValue 0 (r * 4 + c) := by
    intro i hi j hj
    rw [Finset.mem_range] at hi hj
    have hrow : 2 * r + i < 8 := by omega
    have hcol : 2 * c + j < 8 := by omega
    rw [resizeImage_nearest_pixel (ImageData.mk 4 4 [ch]) (by simp) hrow
      hcol]
    have h1 : (2 * r + i) * 4 / 8 = r := by
      rw [show (8 : ℕ) = 2 * 4 from rfl,
        Nat.mul_div_mul_right _ 2 (by norm_num),
        show 2 * r + i = r * 2 + i from by ring, rowMajor_div r hi]
    have h2 : (2 * c + j) * 4 / 8 = c := by
      rw [show (8 : ℕ) = 2 * 4 from rfl,
        Nat.mul_div_mul_right _ 2 (by norm_num),
        show 2 * c + j = c * 2 + j from by ring, rowMajor_div c hj]
    show (ImageData.mk 4 4 [ch]).getPixelValue 0
        ((2 * r + i) * 4 / 8 * 4 + (2 * c + j) * 4 / 8) = _
    rw [h1, h2]
  rw [Finset.sum_congr rfl
    (fun i hi => Finset.sum_congr rfl (fun j hj => hterm i hi j hj))]
  simp [Finset.sum_const, Finset.card_range]
  ring

/-- The channel used by the round-trip witness: samples 1..16. -/
def roundtripWitnessChannel : List ℚ :=
  [1, 2, 3, 4, 5, 6, 7, 8, 9, 10, 11, 12, 13, 14, 15, 16]

/-- Witness for claim C1 at the concrete channel of samples 1..16, pixel
(3, 2). -/
theorem nearest_up_additive_down_roundtrip_witness :
    roundtripWitnessChannel.length = 16 ∧ 3 < 4 ∧ 2 < 4 ∧
    ((ImageData.resizeByScale (ImageData.resizeByScale
          (ImageData.mk 4 4 [roundtripWitnessChannel]) 2 .nearest) (1 / 2)
          .additive).getImageSize = (4, 4) ∧
      (ImageData.resizeByScale (ImageData.resizeByScale
          (ImageData.mk 4 4 [roundtripWitnessChannel]) 2 .nearest) (1 / 2)
          .additive).getPixelValue 0 (3 * 4 + 2) =
        4 * (ImageData.mk 4 4 [roundtripWitnessChannel]).getPixelValue 0
          (3 * 4 + 2)) :=
  ⟨rfl, by decide, by decide,
   nearest_up_additive_down_roundtrip roundtripWitnessChannel rfl 3 2
     (by decide) (by decide)⟩

/-- The literal 5×3, 2-channel pixel array of
`TEST(ImageData, GetImageDataReport)` (row-major per channel). -/
def reportTestImage : ImageData :=
  ⟨3, 5,
   [[-(1/10), 2/10, 3/10, 4/10, -(5/10),
     15/100, 25/100, -(135/100), 45/100, 55/100,
     6/10, 165/100, 7/10, 75/100, 18/10],
    [6/10, 15/10, 33/100, 1/10, 2/10,
     182/100, 15/100, 35/100, 354/100, 5/10,
     16/10, 62/100, 1, 923/100, -(99/10)]]⟩

/-- Claim C9: `GetImageDataReport` on the fixed test array reproduces exactly
the counts, extremum channels and global extrema the test expects: 4 negative
pixels, 7 over-one pixels, channel 0 with 3 negatives, channel 1 with 5
over-one, minimum −9.9 and maximum 9.23, over a 5×3 two-channel image. -/
theorem get_image_data_report_fixed_array :
    reportTestImage.getImageDataReport =
      ⟨(5, 3), 2, 4, 7, 0, 3, 1, 5, -(99/10), 923/100⟩ := by
  norm_num [reportTestImage, ImageData.getImageDataReport, argmaxCount,
    List.countP_cons, List.countP_nil, min_def, max_def,
    show List.range 2 = [0, 1] from rfl, List.getD]

/-- Division undoes multiplication on every sample of a channel. -/
theorem map_div_map_mul_cancel (s : ℚ) (hs : s ≠ 0) (l : List ℚ) :
    (l.map (fun v => v * s)).map (fun v => v / s) = l := by
  rw [List.map_map]
  have hcomp : ((fun v : ℚ => v / s) ∘ fun v : ℚ => v * s) = id := by
    funext v
    simp [mul_div_cancel_right₀ v hs]
  rw [hcomp, List.map_id]

/-- Claim C6: for same-shape images and a nonzero scalar `s`, multiplying by
`s` then dividing by `s` returns the original image exactly (hence within any
floating tolerance), and image addition is commutative.  The operators are
pure by construction in this model: they take their operands by value and
build a new image. -/
theorem image_arithmetic_cancel_and_comm (a b : ImageData) (s : ℚ)
    (hs : s ≠ 0) (hH : a.height = b.height) (hW : a.width = b.width)
    (hC : a.channels.length = b.channels.length) :
    (a.multiplyByScalar s).divideByScalar s = a ∧
    a.addImages b = b.addImages a := by
  constructor
  · obtain ⟨h, w, chs⟩ := a
    unfold ImageData.multiplyByScalar ImageData.divideByScalar
    simp only
    congr 1
    rw [List.map_map]
    have hcomp : (List.map (fun v : ℚ => v / s) ∘
        List.map (fun v : ℚ => v * s)) = id := by
      funext ch
      exact map_div_map_mul_cancel s hs ch
    rw [hcomp, List.map_id]
  · unfold ImageData.addImages
    rw [if_pos ⟨hH, hW, hC⟩, if_pos ⟨hH.symm, hW.symm, hC.symm⟩]
    have hzip : List.zipWith (List.zipWith (fun x y : ℚ => x + y)) a.channels
        b.channels =
        List.zipWith (List.zipWith (fun x y : ℚ => x + y)) b.channels
          a.channels :=
      List.zipWith_comm_of_comm _
        (fun u v => List.zipWith_comm_of_comm _ (fun x y => add_comm x y) u v)
        _ _
    rw [hzip, hH, hW]

/-- Concrete images used by the arithmetic witness. -/
def arithWitnessA : ImageData := ⟨1, 2, [[2, 5]]⟩

/-- Second concrete image used by the arithmetic witness. -/
def arithWitnessB : ImageData := ⟨1, 2, [[7, 11]]⟩

/-- Witness for claim C6 at the concrete images `[[2, 5]]`, `[[7, 11]]` and
`s = 3`. -/
theorem image_arithmetic_cancel_and_comm_witness :
    ((3 : ℚ) ≠ 0 ∧ arithWitnessA.height = arithWitnessB.height ∧
      arithWitnessA.width = arithWitnessB.width ∧
      arithWitnessA.channels.length = arithWitnessB.channels.length) ∧
    ((arithWitnessA.multiplyByScalar 3).divideByScalar 3 = arithWitnessA ∧
      arithWitnessA.addImages arithWitnessB =
        arithWitnessB.addImages arithWitnessA) :=
  ⟨⟨by decide, rfl, rfl, rfl⟩,
   image_arithmetic_cancel_and_comm arithWitnessA arithWitnessB 3 (by decide)
     rfl rfl rfl⟩

/-- Claim C10: a default-constructed (empty) image reports 0 channels, size
(0, 0) and 0 pixels; adding the first channel establishes the image size and
pixel count; adding a further same-sized channel to a non-empty image keeps
the size and pixel count and increments the channel count by one. -/
theorem empty_image_and_add_channel_behavior :
    (ImageData.empty.getNumChannels = 0 ∧
      ImageData.empty.getImageSize = (0, 0) ∧
      ImageData.empty.getNumPixels = 0) ∧
    (∀ h w : ℕ, ∀ d : List ℚ, ∃ img1,
      ImageData.empty.addChannel h w d = some img1 ∧
      img1.getImageSize = (w, h) ∧ img1.getNumPixels = h * w ∧
      img1.getNumChannels = 1) ∧
    (∀ img : ImageData, ∀ d : List ℚ, 0 < img.getNumChannels →
      ∃ img2, img.addChannel img.height img.width d = some img2 ∧
        img2.getImageSize = img.getImageSize ∧
        img2.getNumPixels = img.getNumPixels ∧
        img2.getNumChannels = img.getNumChannels + 1) := by
  refine ⟨⟨rfl, rfl, rfl⟩, ?_, ?_⟩
  · intro h w d
    exact ⟨⟨h, w, [d]⟩, rfl, rfl, rfl, rfl⟩
  · intro img d hpos
    have hne : ¬ img.channels.isEmpty := by
      unfold ImageData.getNumChannels at hpos
      cases hchs : img.channels with
      | nil => rw [hchs] at hpos; simp at hpos
      | cons x xs => simp [hchs]
    refine ⟨⟨img.height, img.width, img.channels ++ [d]⟩, ?_, rfl, rfl, ?_⟩
    · unfold ImageData.addChannel
      rw [if_neg hne, if_pos ⟨rfl, rfl⟩]
    · unfold ImageData.getNumChannels
      simp

/-- Concrete non-empty image used by the add-channel witness. -/
def addChannelWitnessImage : ImageData := ⟨2, 3, [[1, 2, 3, 4, 5, 6]]⟩

/-- Witness for claim C10: the first-channel clause at a 2×3 channel and the
append clause at a concrete one-channel 2×3 image. -/
theorem empty_image_and_add_channel_behavior_witness :
    (0 < addChannelWitnessImage.getNumChannels) ∧
    (∃ img1, ImageData.empty.addChannel 2 3 [9, 9, 9, 9, 9, 9] = some img1 ∧
      img1.getImageSize = (3, 2) ∧ img1.getNumPixels = 2 * 3 ∧
      img1.getNumChannels = 1) ∧
    (∃ img2, addChannelWitnessImage.addChannel addChannelWitnessImage.height
        addChannelWitnessImage.width [0, 0, 0, 0, 0, 0] = some img2 ∧
      img2.getImageSize = addChannelWitnessImage.getImageSize ∧
      img2.getNumPixels = addChannelWitnessImage.getNumPixels ∧
      img2.getNumChannels = addChannelWitnessImage.getNumChannels + 1) :=
  ⟨by decide,
   empty_image_and_add_channel_behavior.2.1 2 3 [9, 9, 9, 9, 9, 9],
   empty_image_and_add_channel_behavior.2.2 addChannelWitnessImage
     [0, 0, 0, 0, 0, 0] (by decide)⟩

/-- Claim C7: copying an image deep-duplicates channel data.  After a copy,
writing any pixel through the copy's mutable channel data leaves every
pre-existing buffer of the store — in particular every pixel of the original
image, and any raw source array the original was built from — unchanged. -/
theorem copy_is_deep_no_aliasing (s : Store) (img : ImageRef)
    (hvalid : ∀ bu ∈ img.buffers, bu < s.length)
    (wch idx : ℕ) (hwch : wch < img.buffers.length) (v : ℚ)
    (rch ridx : ℕ) (hrch : rch < img.buffers.length) :
    (∀ bu, bu < s.length →
      (writePixel (copyImage s img).1
          ((copyImage s img).2.buffers.getD wch 0) idx v).getD bu [] =
        s.getD bu []) ∧
    readPixel (writePixel (copyImage s img).1
        ((copyImage s img).2.buffers.getD wch 0) idx v) img rch ridx =
      readPixel s img rch ridx := by
  have htarget : (copyImage s img).2.buffers.getD wch 0 = s.length + wch := by
    unfold copyImage
    exact getD_map_range _ _ hwch
  have hmain : ∀ bu, bu < s.length →
      (writePixel (copyImage s img).1 (s.length + wch) idx v).getD bu [] =
        s.getD bu [] := by
    intro bu hbu
    unfold writePixel copyImage
    simp only
    rw [List.getD_eq_getElem?_getD,
      List.getElem?_set_ne (by omega : s.length + wch ≠ bu),
      List.getElem?_append_left hbu, ← List.getD_eq_getElem?_getD]
  constructor
  · intro bu hbu
    rw [htarget]
    exact hmain bu hbu
  · unfold readPixel
    have hbuf : img.buffers.getD rch 0 ∈ img.buffers := by
      rw [List.getD_eq_getElem _ _ hrch]
      exact List.getElem_mem hrch
    rw [htarget, hmain _ (hvalid _ hbuf)]

/-- Concrete store used by the deep-copy witness: two channel buffers. -/
def aliasWitnessStore : Store := [[1, 2], [3, 4]]

/-- Concrete 1×2 two-channel image over `aliasWitnessStore`. -/
def aliasWitnessImage : ImageRef := ⟨1, 2, [0, 1]⟩

/-- Witness for claim C7: copy the concrete image, write 99 through channel 0
of the copy, and observe that buffer 0 of the store and pixel (1, 1) of the
original are unchanged. -/
theorem copy_is_deep_no_aliasing_witness :
    ((∀ bu ∈ aliasWitnessImage.buffers, bu < aliasWitnessStore.length) ∧
      0 < aliasWitnessImage.buffers.length ∧
      1 < aliasWitnessImage.buffers.length ∧
      0 < aliasWitnessStore.length) ∧
    (writePixel (copyImage aliasWitnessStore aliasWitnessImage).1
        ((copyImage aliasWitnessStore aliasWitnessImage).2.buffers.getD 0 0)
        0 99).getD 0 [] = aliasWitnessStore.getD 0 [] ∧
    readPixel (writePixel (copyImage aliasWitnessStore aliasWitnessImage).1
        ((copyImage aliasWitnessStore aliasWitnessImage).2.buffers.getD 0 0)
        0 99) aliasWitnessImage 1 1 =
      readPixel aliasWitnessStore aliasWitnessImage 1 1 :=
  ⟨⟨by decide, by decide, by decide, by decide⟩,
   (copy_is_deep_no_aliasing aliasWitnessStore aliasWitnessImage (by decide)
       0 0 (by decide) 99 1 1 (by decide)).1 0 (by decide),
   (copy_is_deep_no_aliasing aliasWitnessStore aliasWitnessImage (by decide)
       0 0 (by decide) 99 1 1 (by decide)).2⟩

end SuperResolution
